import Mathlib

/-!
Verification of the asynkets coordination primitives.

This file gives a shallow embedding of the core data structures of the
library — the boolean latch (`Switch`), the broadcast pulse (`Pulse` /
`TimePulse`), the periodic scheduler (`Ticker`) and the bounded counter
(`EventfulCounter`) — and proves or refutes the spec claims about them.

Numeric values (timestamps, counter values, periods) are modelled as
rationals; the claims under scrutiny only involve ordering and exact
arithmetic on these values.  Futures are modelled by an explicit status
(`pending` / `resolved` / `cancelled`) and coroutine suspension by small
step machines driven by explicit operation traces.
-/

namespace Asynkets

/-! ## Switch (src/asynkets/switch.py)

A `Switch` holds a boolean `state` and two asyncio events, `_ev_on` and
`_ev_off`, used to wake waiters on transitions.  `set` / `clear` are
no-ops when the switch is already in the requested state. -/

structure Switch where
  state : Bool
  evOn : Bool
  evOff : Bool
  deriving DecidableEq, Repr

namespace Switch

/-- `Switch.set`: turn the switch on; no-op when already on. -/
def set (s : Switch) : Switch :=
  if s.state then s else ⟨true, true, false⟩

/-- `Switch.clear`: turn the switch off; no-op when already off. -/
def clear (s : Switch) : Switch :=
  if s.state then ⟨false, false, true⟩ else s

/-- `Switch.set_state`: dispatch to `set` / `clear`. -/
def setState (s : Switch) (b : Bool) : Switch :=
  if b then s.set else s.clear

/-- `Switch.is_set`. -/
def isSet (s : Switch) : Bool := s.state

/-- `Switch.__init__`: fields are created cleared, `_state` is assigned the
initial state, and then `set_state(initial_state)` runs (a no-op in both
cases because `_state` was already assigned). -/
def init (initialState : Bool) : Switch :=
  Switch.setState ⟨initialState, false, false⟩ initialState

end Switch

/-! ## EventfulCounter (src/asynkets/eventful_counter.py) -/

structure Counter where
  counter : ℚ
  maxValue : Option ℚ
  minValue : Option ℚ
  clampToBounds : Bool
  minEv : Switch
  maxEv : Switch
  deriving DecidableEq, Repr

namespace Counter

/-- Block 2 of `EventfulCounter.set`: if `_max_value` is set and
`_counter >= _max_value`, set `_max_ev`; if clamping, `_counter = _max_value`. -/
def enterMax (c : Counter) : Counter :=
  match c.maxValue with
  | some mx =>
    if c.counter ≥ mx then
      let ca := { c with maxEv := c.maxEv.set }
      if ca.clampToBounds then { ca with counter := mx } else ca
    else c
  | none => c

/-- Block 3 of `EventfulCounter.set`: if `_min_ev.is_set()` and
`_counter > _min_value`, clear `_min_ev`.  (The source compares against
`_min_value` unconditionally here; that line is only reachable with
`_min_value` present in well-formed states.) -/
def leaveMin (c : Counter) : Counter :=
  if c.minEv.isSet then
    match c.minValue with
    | some mn => if c.counter > mn then { c with minEv := c.minEv.clear } else c
    | none => c
  else c

/-- Block 4 of `EventfulCounter.set`: if `_min_value` is set and
`_counter <= _min_value`, set `_min_ev`; if clamping, `_counter = _min_value`. -/
def enterMin (c : Counter) : Counter :=
  match c.minValue with
  | some mn =>
    if c.counter ≤ mn then
      let ca := { c with minEv := c.minEv.set }
      if ca.clampToBounds then { ca with counter := mn } else ca
    else c
  | none => c

/-- Block 5 of `EventfulCounter.set`: if `_max_ev.is_set()` and
`_counter < _max_value`, clear `_max_ev`. -/
def leaveMax (c : Counter) : Counter :=
  if c.maxEv.isSet then
    match c.maxValue with
    | some mx => if c.counter < mx then { c with maxEv := c.maxEv.clear } else c
    | none => c
  else c

/-- `EventfulCounter.set`: assign `_counter = value`, then run the four
latch blocks in the exact order of the source. -/
def set (c : Counter) (value : ℚ) : Counter :=
  leaveMax (enterMin (leaveMin (enterMax { c with counter := value })))

/-- `EventfulCounter.inc`. -/
def inc (c : Counter) (b : ℚ) : Counter := c.set (c.counter + b)

/-- `EventfulCounter.dec`. -/
def dec (c : Counter) (b : ℚ) : Counter := c.set (c.counter - b)

/-- `EventfulCounter.min_value` setter.  Returns the new state together with
`true` on success, or the unchanged state with `false` when the call raises
`ValueError` (min greater than the current max). -/
def setMinValue (c : Counter) (v : Option ℚ) : Counter × Bool :=
  match v with
  | none => ({ c with minValue := none, minEv := c.minEv.setState false }, true)
  | some x =>
    match c.maxValue with
    | some mx =>
      if x > mx then (c, false)
      else (Counter.set { c with minValue := some x } c.counter, true)
    | none => (Counter.set { c with minValue := some x } c.counter, true)

/-- `EventfulCounter.max_value` setter, symmetric to `setMinValue`. -/
def setMaxValue (c : Counter) (v : Option ℚ) : Counter × Bool :=
  match v with
  | none => ({ c with maxValue := none, maxEv := c.maxEv.setState false }, true)
  | some x =>
    match c.minValue with
    | some mn =>
      if x < mn then (c, false)
      else (Counter.set { c with maxValue := some x } c.counter, true)
    | none => (Counter.set { c with maxValue := some x } c.counter, true)

end Counter

/-- `EventfulCounter.__init__`: stores the configuration, creates the two
switches (fresh, i.e. off), and runs the full `set` algorithm on the
initial value.  No bound validation happens in the constructor. -/
def mkCounter (initialValue : ℚ) (maxValue minValue : Option ℚ)
    (clampToBounds : Bool) : Counter :=
  Counter.set
    ⟨initialValue, maxValue, minValue, clampToBounds, Switch.init false, Switch.init false⟩
    initialValue

/-- Well-formedness of a counter state: a latch for an absent bound is off.
All states reachable through the public operations satisfy this. -/
def Counter.WF (c : Counter) : Prop :=
  (c.minValue = none → c.minEv.state = false) ∧
  (c.maxValue = none → c.maxEv.state = false)

/-- The value of the counter right after block 2 of `set` has run on an
assigned value `v`: the assigned value, clamped down to the max bound when
clamping is on and the bound was hit. -/
def clampedDown (v : ℚ) (maxv : Option ℚ) (clamp : Bool) : ℚ :=
  match maxv with
  | some mx => if mx ≤ v ∧ clamp = true then mx else v
  | none => v

/-! ## Pulse (src/asynkets/pulse.py)

A `_BasePulse` keeps a deque of pending futures (`_waiters`, arrival
order), a `_value` holding the last fired timestamp, and fires by calling
`set_result` on every future in the deque and then clearing the deque.
An asyncio future is `pending`, `resolved` with a value, or `cancelled`;
`set_result` on a future that is already done raises `InvalidStateError`,
which propagates out of `_fire` and aborts the loop at that point. -/

inductive FStat where
  | pending
  | resolved (t : ℚ)
  | cancelled
  deriving DecidableEq, Repr

/-- Status of the future with a given id inside an allocation list. -/
def statOf : List (Nat × FStat) → Nat → Option FStat
  | [], _ => none
  | (j, s) :: rest, i => if i = j then some s else statOf rest i

/-- Update the status of the future with a given id. -/
def setStat : List (Nat × FStat) → Nat → FStat → List (Nat × FStat)
  | [], _, _ => []
  | (j, s) :: rest, i, s' =>
    if j = i then (j, s') :: rest else (j, s) :: setStat rest i s'

structure PulseSt where
  nextId : Nat
  order : List Nat
  stat : List (Nat × FStat)
  lastValue : Option ℚ
  deriving DecidableEq, Repr

namespace PulseSt

/-- The freshly constructed pulse: empty deque, no last value. -/
def empty : PulseSt := ⟨0, [], [], none⟩

/-- `_BasePulse.wait`: create a fresh pending future, append it to the
deque, and hand it back. -/
def wait (st : PulseSt) : PulseSt × Nat :=
  (⟨st.nextId + 1, st.order ++ [st.nextId],
    st.stat ++ [(st.nextId, FStat.pending)], st.lastValue⟩, st.nextId)

/-- Task cancellation of a waiter: the future it was suspended on becomes
cancelled.  Nothing removes it from the deque. -/
def cancel (st : PulseSt) (i : Nat) : PulseSt :=
  { st with stat := setStat st.stat i FStat.cancelled }

/-- The `for fut in self._waiters: fut.set_result(self._value)` loop of
`_BasePulse._fire`.  Returns the futures after the loop, the list of
`(future, value)` resolutions actually performed in order, and whether the
loop ran to completion (`false` means `set_result` raised
`InvalidStateError` on a future that was already done). -/
def fireLoop (t : ℚ) : List Nat → List (Nat × FStat) →
    List (Nat × FStat) × List (Nat × ℚ) × Bool
  | [], st => (st, [], true)
  | i :: rest, st =>
    match statOf st i with
    | some FStat.pending =>
      let r := fireLoop t rest (setStat st i (FStat.resolved t))
      (r.1, (i, t) :: r.2.1, r.2.2)
    | _ => (st, [], false)

/-- `_BasePulse._fire`: record the timestamp in `_value`, resolve the
pending futures in deque order, and clear the deque — unless the loop
raised, in which case the deque survives as-is and the exception
propagates (`false` in the last component). -/
def fire (st : PulseSt) (t : ℚ) : PulseSt × List (Nat × ℚ) × Bool :=
  let r := fireLoop t st.order st.stat
  if r.2.2 then
    ({ st with lastValue := some t, stat := r.1, order := [] }, r.2.1, true)
  else
    ({ st with lastValue := some t, stat := r.1 }, r.2.1, false)

end PulseSt

/-! ## TimePulse (src/asynkets/pulse.py)

`TimePulse.__init__` records `_start_time`, `_period`, sets `_ticks = 0`
and schedules the first `_tick` at `_start_time + _period`.  `_tick`
fires, increments `_ticks`, and schedules the next `_tick` at
`_start_time + _period * _ticks`.  `scheduled` below is the absolute
deadline the next `_tick` invocation is scheduled at. -/

structure TimePulseSt where
  startTime : ℚ
  period : ℚ
  ticks : Nat
  scheduled : ℚ
  deriving DecidableEq, Repr

namespace TimePulseSt

/-- `TimePulse.__init__` (the deadline of the first firing). -/
def init (t p : ℚ) : TimePulseSt := ⟨t, p, 0, t + p⟩

/-- `TimePulse._tick`: fire, increment `_ticks`, reschedule at
`_start_time + _period * _ticks`. -/
def tick (s : TimePulseSt) : TimePulseSt :=
  let n := s.ticks + 1
  ⟨s.startTime, s.period, n, s.startTime + s.period * n⟩

end TimePulseSt

/-! ## Ticker (src/asynkets/constant_timer.py)

The `tickHandle` field mirrors `_tick_handle`: `none` until the first
`_tick` schedules a timer, then `some deadline`.  `handleCancelled`
records whether `cancel()` was called on the handle.  `done` mirrors the
`_done_event` asyncio event (`wait_done` resolves exactly when it is
set), and `fires` counts how often `_ready_pulse.fire()` ran. -/

structure TickerSt where
  iterationCount : Nat
  startTime : ℚ
  period : ℚ
  count : Option Nat
  started : Bool
  done : Bool
  tickHandle : Option ℚ
  handleCancelled : Bool
  fires : Nat
  deriving DecidableEq, Repr

namespace TickerSt

/-- `Ticker.is_done`. -/
def isDone (s : TickerSt) : Bool := s.done

/-- `Ticker.stop`: only acts when a tick handle exists; cancels it and
sets the done event. -/
def stop (s : TickerSt) : TickerSt :=
  if s.tickHandle.isSome then { s with handleCancelled := true, done := true } else s

/-- The firing branch of `Ticker._tick`: fire the ready pulse, compute
`next_time = _iteration_count * _period + _start_time`, increment
`_iteration_count`, and schedule the next `_tick` at `next_time`. -/
def fireStep (s : TickerSt) : TickerSt :=
  { s with
    fires := s.fires + 1
    tickHandle := some (s.iterationCount * s.period + s.startTime)
    handleCancelled := false
    iterationCount := s.iterationCount + 1 }

/-- `Ticker._tick`: no-op when done; stop when the configured count is
exceeded; otherwise fire and reschedule. -/
def tick (s : TickerSt) : TickerSt :=
  if s.done then s
  else
    match s.count with
    | some c => if s.iterationCount > c then s.stop else s.fireStep
    | none => s.fireStep

end TickerSt

/-- `Ticker.__init__` at loop time `t`: record the configuration, and when
`start` is true run `start()`, which marks the ticker started, re-reads
the start time and invokes `_tick()` synchronously. -/
def mkTicker (t p : ℚ) (count : Option Nat) (start : Bool) : TickerSt :=
  let s : TickerSt := ⟨0, t, p, count, false, false, none, false, 0⟩
  if start then TickerSt.tick { s with started := true, startTime := t } else s

/-- Run `n` further invocations of `Ticker._tick` (each scheduled handle,
when it fires, invokes `_tick` once). -/
def runTicks : Nat → TickerSt → TickerSt
  | 0, s => s
  | n + 1, s => TickerSt.tick (runTicks n s)

/-! ## The `wait_toggle_to` waiter (src/asynkets/switch.py)

`wait_toggle_to(state)` awaits `wait_clear()` then `wait()` when `state`
is true, and `wait()` then `wait_clear()` when it is false.  We model a
suspended call as a phase machine driven by the trace of `set` / `clear`
operations performed on the switch after the call: the waiter first needs
the switch to be (or become) the opposite state, then needs a transition
into the target state. -/

inductive SwOp where
  | set
  | clear
  deriving DecidableEq, Repr

/-- Apply one mutation to the switch. -/
def Switch.apply (s : Switch) : SwOp → Switch
  | SwOp.set => s.set
  | SwOp.clear => s.clear

inductive WPhase where
  | waitingOpposite
  | waitingTarget
  | finished
  deriving DecidableEq, Repr

/-- The phase the `wait_toggle_to(target)` call is in right after it is
made: the first await (for the opposite state) returns immediately when
the switch already is in the opposite state. -/
def initPhase (target : Bool) (s : Switch) : WPhase :=
  if s.state = target then WPhase.waitingOpposite else WPhase.waitingTarget

/-- Advance the suspended `wait_toggle_to(target)` call across one switch
operation.  The events only wake a waiter on an actual transition
(`set` / `clear` are no-ops when the state already matches). -/
def stepPhase (target : Bool) (s : Switch) (ph : WPhase) (op : SwOp) : WPhase :=
  let s' := s.apply op
  match ph with
  | WPhase.waitingOpposite =>
    if s.state = target ∧ s'.state ≠ target then WPhase.waitingTarget
    else WPhase.waitingOpposite
  | WPhase.waitingTarget =>
    if s.state ≠ target ∧ s'.state = target then WPhase.finished
    else WPhase.waitingTarget
  | WPhase.finished => WPhase.finished

/-- Run a suspended waiter from a given phase across a trace of switch
operations. -/
def runWaiter (target : Bool) : Switch → WPhase → List SwOp → WPhase
  | _, ph, [] => ph
  | s, ph, op :: rest => runWaiter target (s.apply op) (stepPhase target s ph op) rest

/-- The phase of a `wait_toggle_to(target)` call made on switch `s` after
the operation trace `ops` has subsequently run. -/
def waiterRun (target : Bool) (s : Switch) (ops : List SwOp) : WPhase :=
  runWaiter target s (initPhase target s) ops

/-- Whether the trace `ops`, run from switch `s`, contains a transition
into the state `target`. -/
def risingTo (target : Bool) : Switch → List SwOp → Bool
  | _, [] => false
  | s, op :: rest =>
    (decide (s.state ≠ target) && decide ((s.apply op).state = target)) ||
      risingTo target (s.apply op) rest

/-! ## General lemmas about the embedded operations -/

namespace Switch

@[simp] theorem state_set (s : Switch) : s.set.state = true := by
  unfold Switch.set
  split <;> simp_all

@[simp] theorem state_clear (s : Switch) : s.clear.state = false := by
  unfold Switch.clear
  split <;> simp_all

@[simp] theorem state_setState (s : Switch) (b : Bool) : (s.setState b).state = b := by
  unfold Switch.setState
  cases b <;> simp

end Switch

namespace Counter

theorem enterMax_of_none (c : Counter) (hm : c.maxValue = none) : c.enterMax = c := by
  unfold enterMax
  rw [hm]

theorem enterMax_minEv (c : Counter) : c.enterMax.minEv = c.minEv := by
  unfold enterMax
  split <;> dsimp only <;> (try split_ifs) <;> rfl

theorem enterMax_minValue (c : Counter) : c.enterMax.minValue = c.minValue := by
  unfold enterMax
  split <;> dsimp only <;> (try split_ifs) <;> rfl

theorem enterMax_maxValue (c : Counter) : c.enterMax.maxValue = c.maxValue := by
  unfold enterMax
  split <;> dsimp only <;> (try split_ifs) <;> rfl

theorem enterMax_clamp (c : Counter) : c.enterMax.clampToBounds = c.clampToBounds := by
  unfold enterMax
  split <;> dsimp only <;> (try split_ifs) <;> rfl

theorem enterMax_maxEv_of_some (c : Counter) (mx : ℚ) (hm : c.maxValue = some mx) :
    c.enterMax.maxEv = if mx ≤ c.counter then c.maxEv.set else c.maxEv := by
  unfold enterMax
  rw [hm]
  dsimp only
  split_ifs with h1 h2 <;> simp_all [ge_iff_le]

theorem enterMax_counter_of_some (c : Counter) (mx : ℚ) (hm : c.maxValue = some mx) :
    c.enterMax.counter =
      if mx ≤ c.counter ∧ c.clampToBounds = true then mx else c.counter := by
  unfold enterMax
  rw [hm]
  dsimp only
  split_ifs with h1 h2 <;> simp_all [ge_iff_le]

theorem leaveMin_counter (c : Counter) : c.leaveMin.counter = c.counter := by
  unfold leaveMin
  split_ifs <;> (try split) <;> (try split_ifs) <;> rfl

theorem leaveMin_maxEv (c : Counter) : c.leaveMin.maxEv = c.maxEv := by
  unfold leaveMin
  split_ifs <;> (try split) <;> (try split_ifs) <;> rfl

theorem leaveMin_minValue (c : Counter) : c.leaveMin.minValue = c.minValue := by
  unfold leaveMin
  split_ifs <;> (try split) <;> (try split_ifs) <;> rfl

theorem leaveMin_maxValue (c : Counter) : c.leaveMin.maxValue = c.maxValue := by
  unfold leaveMin
  split_ifs <;> (try split) <;> (try split_ifs) <;> rfl

theorem leaveMin_clamp (c : Counter) : c.leaveMin.clampToBounds = c.clampToBounds := by
  unfold leaveMin
  split_ifs <;> (try split) <;> (try split_ifs) <;> rfl

theorem leaveMin_of_none (c : Counter) (hm : c.minValue = none) : c.leaveMin = c := by
  unfold leaveMin
  rw [hm]
  split_ifs <;> rfl

theorem leaveMin_minEv_state_of_some (c : Counter) (mn : ℚ) (hm : c.minValue = some mn) :
    c.leaveMin.minEv.state = (c.minEv.state && !(decide (mn < c.counter))) := by
  unfold leaveMin
  rw [hm]
  unfold Switch.isSet
  by_cases hlt : mn < c.counter <;> split_ifs with h1 <;>
    simp_all [gt_iff_lt, if_pos, if_neg]

theorem enterMin_of_none (c : Counter) (hm : c.minValue = none) : c.enterMin = c := by
  unfold enterMin
  rw [hm]

theorem enterMin_maxEv (c : Counter) : c.enterMin.maxEv = c.maxEv := by
  unfold enterMin
  split <;> dsimp only <;> (try split_ifs) <;> rfl

theorem enterMin_minValue (c : Counter) : c.enterMin.minValue = c.minValue := by
  unfold enterMin
  split <;> dsimp only <;> (try split_ifs) <;> rfl

theorem enterMin_maxValue (c : Counter) : c.enterMin.maxValue = c.maxValue := by
  unfold enterMin
  split <;> dsimp only <;> (try split_ifs) <;> rfl

theorem enterMin_clamp (c : Counter) : c.enterMin.clampToBounds = c.clampToBounds := by
  unfold enterMin
  split <;> dsimp only <;> (try split_ifs) <;> rfl

theorem enterMin_minEv_of_some (c : Counter) (mn : ℚ) (hm : c.minValue = some mn) :
    c.enterMin.minEv = if c.counter ≤ mn then c.minEv.set else c.minEv := by
  unfold enterMin
  rw [hm]
  dsimp only
  split_ifs with h1 h2 <;> simp_all

theorem enterMin_counter_of_some (c : Counter) (mn : ℚ) (hm : c.minValue = some mn) :
    c.enterMin.counter =
      if c.counter ≤ mn ∧ c.clampToBounds = true then mn else c.counter := by
  unfold enterMin
  rw [hm]
  dsimp only
  split_ifs with h1 h2 <;> simp_all

theorem enterMin_counter_le (c : Counter) : c.counter ≤ c.enterMin.counter := by
  unfold enterMin
  split
  · dsimp only
    split_ifs <;> simp_all
  · exact le_refl _

theorem leaveMax_counter (c : Counter) : c.leaveMax.counter = c.counter := by
  unfold leaveMax
  split_ifs <;> (try split) <;> (try split_ifs) <;> rfl

theorem leaveMax_minEv (c : Counter) : c.leaveMax.minEv = c.minEv := by
  unfold leaveMax
  split_ifs <;> (try split) <;> (try split_ifs) <;> rfl

theorem leaveMax_minValue (c : Counter) : c.leaveMax.minValue = c.minValue := by
  unfold leaveMax
  split_ifs <;> (try split) <;> (try split_ifs) <;> rfl

theorem leaveMax_maxValue (c : Counter) : c.leaveMax.maxValue = c.maxValue := by
  unfold leaveMax
  split_ifs <;> (try split) <;> (try split_ifs) <;> rfl

theorem leaveMax_of_none (c : Counter) (hm : c.maxValue = none) : c.leaveMax = c := by
  unfold leaveMax
  rw [hm]
  split_ifs <;> rfl

theorem leaveMax_maxEv_state_of_some (c : Counter) (mx : ℚ) (hm : c.maxValue = some mx) :
    c.leaveMax.maxEv.state = (c.maxEv.state && !(decide (c.counter < mx))) := by
  unfold leaveMax
  rw [hm]
  unfold Switch.isSet
  by_cases hlt : c.counter < mx <;> split_ifs with h1 <;>
    simp_all [if_pos, if_neg]

end Counter

theorem Counter.leaveMin_of_state_false (c : Counter) (h : c.minEv.state = false) :
    c.leaveMin = c := by
  unfold Counter.leaveMin Switch.isSet
  rw [h]
  simp

theorem Counter.enterMax_counter_clampedDown (init : ℚ) (maxv minv : Option ℚ)
    (clamp : Bool) (s1 s2 : Switch) :
    (Counter.enterMax ⟨init, maxv, minv, clamp, s1, s2⟩).counter =
      clampedDown init maxv clamp := by
  rcases maxv with _ | mx
  · rw [Counter.enterMax_of_none _ rfl]
    rfl
  · rw [Counter.enterMax_counter_of_some _ mx rfl]
    dsimp only
    rfl

theorem statOf_setStat_self (l : List (Nat × FStat)) (i : Nat) (s : FStat)
    (h : (statOf l i).isSome) : statOf (setStat l i s) i = some s := by
  induction l with
  | nil => simp [statOf] at h
  | cons p rest ih =>
    obtain ⟨j, x⟩ := p
    by_cases hji : j = i
    · subst hji
      simp [setStat, statOf]
    · rw [setStat, if_neg hji, statOf, if_neg (Ne.symm hji)]
      rw [statOf, if_neg (Ne.symm hji)] at h
      exact ih h

theorem statOf_setStat_ne (l : List (Nat × FStat)) (i j : Nat) (s : FStat)
    (h : j ≠ i) : statOf (setStat l i s) j = statOf l j := by
  induction l with
  | nil => simp [setStat]
  | cons p rest ih =>
    obtain ⟨k, x⟩ := p
    by_cases hki : k = i
    · subst hki
      simp [setStat, statOf, h]
    · rw [setStat, if_neg hki, statOf, statOf]
      split <;> simp_all

theorem statOf_append_left_none (l r : List (Nat × FStat)) (j : Nat)
    (h : statOf l j = none) : statOf (l ++ r) j = statOf r j := by
  induction l with
  | nil => simp
  | cons p rest ih =>
    obtain ⟨k, x⟩ := p
    rw [statOf] at h
    rw [List.cons_append, statOf]
    split at h
    · exact absurd h (by simp)
    · rw [if_neg (by assumption)]
      exact ih h

theorem fireLoop_all_pending (t : ℚ) :
    ∀ (l : List Nat) (st : List (Nat × FStat)), l.Nodup →
      (∀ i ∈ l, statOf st i = some FStat.pending) →
      (PulseSt.fireLoop t l st).2.1 = l.map (fun i => (i, t)) ∧
      (PulseSt.fireLoop t l st).2.2 = true ∧
      ∀ j, statOf (PulseSt.fireLoop t l st).1 j =
        if j ∈ l then some (FStat.resolved t) else statOf st j := by
  intro l
  induction l with
  | nil =>
    intro st _ _
    simp [PulseSt.fireLoop]
  | cons i rest ih =>
    intro st hnd hp
    have hpi : statOf st i = some FStat.pending := hp i (by simp)
    have hnotmem : i ∉ rest := (List.nodup_cons.mp hnd).1
    have hrest : ∀ x ∈ rest,
        statOf (setStat st i (FStat.resolved t)) x = some FStat.pending := by
      intro x hx
      rw [statOf_setStat_ne _ _ _ _ (by rintro rfl; exact hnotmem hx)]
      exact hp x (by simp [hx])
    obtain ⟨hev, hok, hst⟩ :=
      ih (setStat st i (FStat.resolved t)) (List.nodup_cons.mp hnd).2 hrest
    rw [PulseSt.fireLoop, hpi]
    refine ⟨by simp [hev], by simp [hok], ?_⟩
    intro j
    rw [hst j]
    by_cases hji : j = i
    · subst hji
      simp [hnotmem, statOf_setStat_self st j (FStat.resolved t) (by simp [hpi])]
    · rw [statOf_setStat_ne _ _ _ _ hji]
      simp [hji]

theorem runWaiter_finished_risingTo (target : Bool) :
    ∀ (ops : List SwOp) (s : Switch) (ph : WPhase), ph ≠ WPhase.finished →
      runWaiter target s ph ops = WPhase.finished → risingTo target s ops = true := by
  intro ops
  induction ops with
  | nil =>
    intro s ph h hrun
    exact absurd hrun h
  | cons op rest ih =>
    intro s ph h hrun
    rw [runWaiter] at hrun
    by_cases hfin : stepPhase target s ph op = WPhase.finished
    · have hcond : s.state ≠ target ∧ (s.apply op).state = target := by
        cases ph with
        | waitingOpposite =>
          rw [stepPhase] at hfin
          split at hfin <;> simp_all
        | waitingTarget =>
          rw [stepPhase] at hfin
          split at hfin <;> simp_all
        | finished => exact absurd rfl h
      rw [risingTo]
      simp [hcond.1, hcond.2]
    · have := ih (s.apply op) (stepPhase target s ph op) hfin hrun
      rw [risingTo]
      simp [this]

theorem runTicks_closed_form (t p : ℚ) (k : Nat) :
    ∀ n, n ≤ k → runTicks n (mkTicker t p (some k) true) =
      ⟨n + 1, t, p, some k, true, false, some ((n : ℚ) * p + t), false, n + 1⟩ := by
  intro n
  induction n with
  | zero =>
    intro _
    rw [runTicks, mkTicker]
    simp [TickerSt.tick, TickerSt.fireStep]
  | succ n ih =>
    intro hnk
    rw [runTicks, ih (Nat.le_of_succ_le hnk)]
    rw [TickerSt.tick]
    have hlt : ¬ (n + 1 > k) := not_lt.mpr hnk
    simp only [hlt, if_false]
    simp [TickerSt.fireStep]

/-! ## The claims -/

/-- C1: the spec claims that for every TimePulse (PeriodicSignal) or Ticker
with start time T and period P, the Nth firing is scheduled at the deadline
T + N·P for every N ≥ 1.  The code computes the next deadline from the
tick count before it reflects the firing that was just scheduled, so it is
off by one: evaluated at T = 0, P = 1, the first TimePulse deadline is
T + 1·P, but the second firing is scheduled at that same deadline again
(1, not T + 2·P = 2), and the Ticker schedules its second tick at the
start time itself (0). -/
theorem timePulse_second_deadline_repeats :
    (TimePulseSt.init 0 1).scheduled = 0 + 1 * 1 ∧
    ((TimePulseSt.init 0 1).tick).scheduled = (TimePulseSt.init 0 1).scheduled ∧
    ((TimePulseSt.init 0 1).tick).scheduled ≠ 0 + 2 * 1 ∧
    (mkTicker 0 1 none true).tickHandle = some 0 := by
  norm_num [TimePulseSt.init, TimePulseSt.tick, mkTicker, TickerSt.tick, TickerSt.fireStep]

/-- C2: the spec claims a Ticker with count k fires its readiness signal
exactly k times (not k + 1) before transitioning to done.  The code checks
`_iteration_count > _count` instead of `>=`, so starting a ticker with
count k and letting the scheduled ticks run fires the pulse k + 1 times:
after k invocations beyond the one in `start()` the done event is still
unset and the pulse has already fired k + 1 times; the next invocation
stops the ticker without firing again. -/
theorem ticker_fires_count_plus_one (t p : ℚ) (k : Nat) :
    (runTicks k (mkTicker t p (some k) true)).done = false ∧
    (runTicks k (mkTicker t p (some k) true)).fires = k + 1 ∧
    (runTicks (k + 1) (mkTicker t p (some k) true)).done = true ∧
    (runTicks (k + 1) (mkTicker t p (some k) true)).fires = k + 1 := by
  have hk := runTicks_closed_form t p k k le_rfl
  refine ⟨by rw [hk], by rw [hk], ?_, ?_⟩
  · rw [runTicks, hk, TickerSt.tick]
    simp [TickerSt.stop, Nat.lt_succ_self]
  · rw [runTicks, hk, TickerSt.tick]
    simp [TickerSt.stop, Nat.lt_succ_self]

/-- C3: the spec claims that after every completed mutation the max latch
state equals (max bound present and value at or above it), and dually for
the min latch.  With clamping enabled and `min_value = max_value = 3`, a
counter constructed at 0 and then `set(1)` ends with its value clamped to
3 (at the max bound) while the max latch is off, violating the invariant
that the hypothesis test suite of the repository asserts. -/
theorem counter_clamped_equal_bounds_violation :
    ((mkCounter 0 (some 3) (some 3) true).set 1).counter = 3 ∧
    ((mkCounter 0 (some 3) (some 3) true).set 1).maxValue = some 3 ∧
    ((mkCounter 0 (some 3) (some 3) true).set 1).maxEv.state = false ∧
    ((3:ℚ) ≥ 3) := by decide

/-- C4 counterexample: the claim says the decision to clear the max latch
compares the un-clamped assigned value strictly against the bound even
when clamping is on.  With `min_value = max_value = 3`, clamping on and
the max latch set, `set(0)` assigns 0 < 3, so under the claim the max
latch would be cleared — but the code compares the counter after the
min-clamp (3 < 3 is false) and leaves the latch set. -/
theorem counter_clear_unclamped_cex :
    ((mkCounter 5 (some 3) (some 3) true).set 0).maxEv.state = true ∧
    ((0:ℚ) < 3) := by decide

/-- C4 amended: the clear decisions in `set` use strict comparisons
against the counter value current at that step (after any clamping
already applied), which coincides with the un-clamped assigned value
whenever clamping is off or the two bounds are distinct: under either of
those conditions the latches after `set v` are exactly `v ≥ max` /
`v ≤ min`, i.e. entering is inclusive and leaving is strict on the
assigned value. -/
theorem counter_clear_uses_clamped (c : Counter) (v : ℚ) (hwf : c.WF)
    (hc : c.clampToBounds = false ∨
      ∀ mn mx, c.minValue = some mn → c.maxValue = some mx → mn < mx) :
    ((c.set v).maxEv.state = true ↔ ∃ mx, c.maxValue = some mx ∧ mx ≤ v) ∧
    ((c.set v).minEv.state = true ↔ ∃ mn, c.minValue = some mn ∧ v ≤ mn) := by
  obtain ⟨cv, cmax, cmin, cclamp, cminEv, cmaxEv⟩ := c
  obtain ⟨hwfmin, hwfmax⟩ := hwf
  simp only at hwfmin hwfmax hc
  have hset : Counter.set ⟨cv, cmax, cmin, cclamp, cminEv, cmaxEv⟩ v =
      Counter.leaveMax (Counter.enterMin (Counter.leaveMin
        (Counter.enterMax ⟨v, cmax, cmin, cclamp, cminEv, cmaxEv⟩))) := rfl
  rw [hset]
  constructor
  · -- the atMax latch after set
    rcases hmx : cmax with _ | mx
    · subst hmx
      rw [Counter.leaveMax_of_none _ (by
        rw [Counter.enterMin_maxValue, Counter.leaveMin_maxValue, Counter.enterMax_maxValue])]
      rw [Counter.enterMin_maxEv, Counter.leaveMin_maxEv, Counter.enterMax_of_none _ rfl]
      simp [hwfmax rfl]
    · subst hmx
      rw [Counter.leaveMax_maxEv_state_of_some _ mx (by
        rw [Counter.enterMin_maxValue, Counter.leaveMin_maxValue, Counter.enterMax_maxValue])]
      rw [Counter.enterMin_maxEv, Counter.leaveMin_maxEv,
        Counter.enterMax_maxEv_of_some _ mx rfl]
      by_cases hle : mx ≤ v
      · have hge : ¬ ((Counter.enterMin (Counter.leaveMin
            (Counter.enterMax ⟨v, some mx, cmin, cclamp, cminEv, cmaxEv⟩))).counter < mx) := by
          have h3 := Counter.leaveMin_counter
            (Counter.enterMax ⟨v, some mx, cmin, cclamp, cminEv, cmaxEv⟩)
          have h4 := Counter.enterMin_counter_le (Counter.leaveMin
            (Counter.enterMax ⟨v, some mx, cmin, cclamp, cminEv, cmaxEv⟩))
          have h5 : mx ≤ (Counter.enterMax ⟨v, some mx, cmin, cclamp, cminEv, cmaxEv⟩).counter := by
            rw [Counter.enterMax_counter_of_some _ mx rfl]
            dsimp only
            split_ifs <;> simp [hle, le_refl]
          rw [h3] at h4
          push_neg
          linarith
        simp [if_pos hle, hge, hle]
      · have hlt : v < mx := lt_of_not_le hle
        have hltX : (Counter.enterMin (Counter.leaveMin
            (Counter.enterMax ⟨v, some mx, cmin, cclamp, cminEv, cmaxEv⟩))).counter < mx := by
          rcases hmn : cmin with _ | mn
          · subst hmn
            rw [Counter.enterMin_of_none _ (by
              rw [Counter.leaveMin_minValue, Counter.enterMax_minValue])]
            rw [Counter.leaveMin_counter, Counter.enterMax_counter_of_some _ mx rfl]
            dsimp only
            rw [if_neg (fun h => hle h.1)]
            exact hlt
          · subst hmn
            rw [Counter.enterMin_counter_of_some _ mn (by
              rw [Counter.leaveMin_minValue, Counter.enterMax_minValue])]
            rw [Counter.leaveMin_counter, Counter.leaveMin_clamp, Counter.enterMax_clamp,
              Counter.enterMax_counter_of_some _ mx rfl]
            dsimp only
            rw [if_neg (show ¬ (mx ≤ v ∧ cclamp = true) from fun hq => hle hq.1)]
            split_ifs with h
            · rcases hc with hc | hc
              · rw [hc] at h
                exact absurd h.2 (by simp)
              · exact hc mn mx rfl rfl
            · exact hlt
        simp [if_neg hle, hltX, hle]
  · -- the atMin latch after set
    rcases hmn : cmin with _ | mn
    · subst hmn
      rw [Counter.leaveMax_minEv, Counter.enterMin_of_none _ (by
        rw [Counter.leaveMin_minValue, Counter.enterMax_minValue]),
        Counter.leaveMin_of_none _ (by rw [Counter.enterMax_minValue]),
        Counter.enterMax_minEv]
      simp [hwfmin rfl]
    · subst hmn
      have hminX : (Counter.leaveMin
          (Counter.enterMax ⟨v, cmax, some mn, cclamp, cminEv, cmaxEv⟩)).minValue = some mn := by
        rw [Counter.leaveMin_minValue, Counter.enterMax_minValue]
      rw [Counter.leaveMax_minEv, Counter.enterMin_minEv_of_some _ mn hminX,
        Counter.leaveMin_counter]
      by_cases hdm : (Counter.enterMax ⟨v, cmax, some mn, cclamp, cminEv, cmaxEv⟩).counter ≤ mn
      · have hvmn : v ≤ mn := by
          rcases hmx : cmax with _ | mx
          · subst hmx
            rw [Counter.enterMax_of_none _ rfl] at hdm
            exact hdm
          · subst hmx
            rw [Counter.enterMax_counter_of_some _ mx rfl] at hdm
            dsimp only at hdm
            split_ifs at hdm with h
            · rcases hc with hc | hc
              · rw [hc] at h
                exact absurd h.2 (by simp)
              · exact absurd hdm (not_le.mpr (hc mn mx rfl rfl))
            · exact hdm
        simp [if_pos hdm, hvmn]
      · have hmnd : mn < (Counter.enterMax ⟨v, cmax, some mn, cclamp, cminEv, cmaxEv⟩).counter :=
          lt_of_not_le hdm
        have hmnv : ¬ (v ≤ mn) := by
          rcases hmx : cmax with _ | mx
          · subst hmx
            rw [Counter.enterMax_of_none _ rfl] at hmnd
            exact not_le.mpr hmnd
          · subst hmx
            rw [Counter.enterMax_counter_of_some _ mx rfl] at hmnd
            dsimp only at hmnd
            split_ifs at hmnd with h
            · exact not_le.mpr (lt_of_lt_of_le hmnd h.1)
            · exact not_le.mpr hmnd
        rw [if_neg hdm, Counter.leaveMin_minEv_state_of_some _ mn (by
          rw [Counter.enterMax_minValue])]
        rw [Counter.enterMax_minEv]
        simp [hmnd, hmnv]

/-- Witness for C4 amended at a concrete unclamped counter. -/
theorem counter_clear_uses_clamped_witness :
    ((Counter.set ⟨0, some 10, some 0, false, ⟨false, false, false⟩,
      ⟨true, true, false⟩⟩ 5).maxEv.state = true ↔
      ∃ mx, (some (10:ℚ)) = some mx ∧ mx ≤ 5) :=
  (counter_clear_uses_clamped ⟨0, some 10, some 0, false, ⟨false, false, false⟩,
    ⟨true, true, false⟩⟩ 5 ⟨(fun h => nomatch h), (fun h => nomatch h)⟩ (Or.inl rfl)).1

/-- C5: firing a Pulse resolves exactly the waiters pending at that
moment, in subscription order, all with the same timestamp; a waiter that
subscribes after the fire is still pending; and a fire with no pending
waiters leaves every future untouched and is not remembered by later
subscribers. -/
theorem pulse_fire_resolves_pending (st : PulseSt) (t : ℚ)
    (hnd : st.order.Nodup)
    (hp : ∀ i ∈ st.order, statOf st.stat i = some FStat.pending)
    (hfresh : statOf st.stat st.nextId = none) :
    (st.fire t).2.2 = true ∧
    (st.fire t).2.1 = st.order.map (fun i => (i, t)) ∧
    (st.fire t).1.order = [] ∧
    (∀ i ∈ st.order, statOf (st.fire t).1.stat i = some (FStat.resolved t)) ∧
    statOf ((st.fire t).1.wait).1.stat ((st.fire t).1.wait).2 = some FStat.pending ∧
    (st.order = [] → (st.fire t).1.stat = st.stat) := by
  obtain ⟨hev, hok, hst⟩ := fireLoop_all_pending t st.order st.stat hnd hp
  have hfresh2 : st.nextId ∉ st.order := by
    intro hmem
    rw [hp st.nextId hmem] at hfresh
    exact Option.noConfusion hfresh
  simp only [PulseSt.fire, hok, if_true]
  refine ⟨trivial, hev, trivial, ?_, ?_, ?_⟩
  · intro i hi
    simpa [hst i] using fun h => absurd hi h
  · simp only [PulseSt.wait]
    rw [statOf_append_left_none _ _ _ (by rw [hst st.nextId]; simp [hfresh2, hfresh])]
    simp [statOf]
  · intro hord
    rw [hord]
    simp [PulseSt.fireLoop, hord]

/-- Witness for C5 on a pulse with two pending waiters fired at time 7. -/
theorem pulse_fire_resolves_pending_witness :
    ((PulseSt.mk 2 [0, 1] [(0, FStat.pending), (1, FStat.pending)] none).fire 7).2.2 = true ∧
    ((PulseSt.mk 2 [0, 1] [(0, FStat.pending), (1, FStat.pending)] none).fire 7).2.1 =
      [(0, 7), (1, 7)] ∧
    ((PulseSt.mk 2 [0, 1] [(0, FStat.pending), (1, FStat.pending)] none).fire 7).1.order = [] := by
  have h := pulse_fire_resolves_pending
    (PulseSt.mk 2 [0, 1] [(0, FStat.pending), (1, FStat.pending)] none) 7
    (by decide) (by decide) (by decide)
  refine ⟨h.1, ?_, h.2.2.1⟩
  rw [h.2.1]
  rfl

/-- C6: the spec claims cancelling one waiter is invisible to the others.
In the code nothing removes a cancelled future from the waiter deque and
`_fire` calls `set_result` unconditionally, which raises
`InvalidStateError` on a done future: with waiters 0 and 1 pending and
waiter 0 cancelled, `fire` aborts (the `false` flag), waiter 1 stays
pending, and the deque is never cleared. -/
theorem pulse_fire_with_cancelled_waiter :
    (((((PulseSt.empty.wait).1.wait).1.cancel 0).fire 5)).2.2 = false ∧
    statOf (((((PulseSt.empty.wait).1.wait).1.cancel 0).fire 5)).1.stat 1 =
      some FStat.pending ∧
    (((((PulseSt.empty.wait).1.wait).1.cancel 0).fire 5)).1.order = [0, 1] := by decide

/-- C7 counterexample: the claim says stop() transitions every Ticker to
done, including one constructed with start=False and never started.  On a
never-started ticker the tick handle is still None, so `stop()` returns
without setting the done event. -/
theorem ticker_stop_unstarted_noop :
    ¬ ((TickerSt.stop (mkTicker 0 1 none false)).done = true) := by decide

/-- C7 amended: on a Ticker whose tick handle exists (it has been
started), stop() cancels the pending scheduled tick and sets the done
event, so is_done is true and wait_done resolves; stop() is idempotent in
every state; but on a Ticker that was never started (start=False and
start() never called) stop() is a no-op and the ticker never becomes
done. -/
theorem ticker_stop_behavior (s : TickerSt) (t p : ℚ) (cnt : Option Nat) :
    (∀ d, s.tickHandle = some d →
      (TickerSt.stop s).done = true ∧ (TickerSt.stop s).handleCancelled = true ∧
        (TickerSt.stop s).tickHandle = some d) ∧
    (s.tickHandle = none → TickerSt.stop s = s) ∧
    TickerSt.stop (TickerSt.stop s) = TickerSt.stop s ∧
    (mkTicker t p cnt false).tickHandle = none ∧
    (mkTicker t p cnt false).done = false ∧
    TickerSt.stop (mkTicker t p cnt false) = mkTicker t p cnt false := by
  refine ⟨?_, ?_, ?_, rfl, rfl, rfl⟩
  · intro d hd
    simp [TickerSt.stop, hd]
  · intro hd
    simp [TickerSt.stop, hd]
  · rcases hd : s.tickHandle with _ | d <;> simp [TickerSt.stop, hd]

/-- Witness for C7 amended on a concrete started ticker state. -/
theorem ticker_stop_behavior_witness :
    (TickerSt.stop ⟨1, 0, 1, none, true, false, some 5, false, 1⟩).done = true ∧
    TickerSt.stop (TickerSt.stop (⟨1, 0, 1, none, true, false, some 5, false, 1⟩ : TickerSt)) =
      TickerSt.stop ⟨1, 0, 1, none, true, false, some 5, false, 1⟩ :=
  ⟨((ticker_stop_behavior ⟨1, 0, 1, none, true, false, some 5, false, 1⟩ 0 1 none).1 5 rfl).1,
    (ticker_stop_behavior ⟨1, 0, 1, none, true, false, some 5, false, 1⟩ 0 1 none).2.2.1⟩

/-- C8: assigning a min bound above the current max bound (or a max bound
below the current min bound) raises a range error and leaves the whole
counter state untouched; removing a bound clears the corresponding latch;
and a successful reassignment re-runs `set` on the current value against
the new bound. -/
theorem counter_bound_reassignment (c : Counter) (x : ℚ) :
    (∀ mx, c.maxValue = some mx → mx < x → c.setMinValue (some x) = (c, false)) ∧
    (∀ mn, c.minValue = some mn → x < mn → c.setMaxValue (some x) = (c, false)) ∧
    ((c.setMinValue none).1.minValue = none ∧ (c.setMinValue none).1.minEv.state = false ∧
      (c.setMinValue none).2 = true) ∧
    ((c.setMaxValue none).1.maxValue = none ∧ (c.setMaxValue none).1.maxEv.state = false ∧
      (c.setMaxValue none).2 = true) ∧
    ((∀ mx, c.maxValue = some mx → x ≤ mx) →
      c.setMinValue (some x) = (Counter.set { c with minValue := some x } c.counter, true)) ∧
    ((∀ mn, c.minValue = some mn → mn ≤ x) →
      c.setMaxValue (some x) = (Counter.set { c with maxValue := some x } c.counter, true)) := by
  refine ⟨?_, ?_, ⟨rfl, by simp [Counter.setMinValue], rfl⟩,
    ⟨rfl, by simp [Counter.setMaxValue], rfl⟩, ?_, ?_⟩
  · intro mx hmx hlt
    simp [Counter.setMinValue, hmx, hlt]
  · intro mn hmn hlt
    simp [Counter.setMaxValue, hmn, hlt]
  · intro hle
    rcases hmx : c.maxValue with _ | mx
    · simp [Counter.setMinValue, hmx]
    · simp [Counter.setMinValue, hmx, not_lt.mpr (hle mx hmx)]
  · intro hle
    rcases hmn : c.minValue with _ | mn
    · simp [Counter.setMaxValue, hmn]
    · simp [Counter.setMaxValue, hmn, not_lt.mpr (hle mn hmn)]

/-- Witness for C8 on a concrete counter with bounds 0 and 10. -/
theorem counter_bound_reassignment_witness :
    Counter.setMinValue ⟨0, some 10, some 0, false, ⟨false, false, false⟩,
      ⟨false, false, false⟩⟩ (some 20) =
      (⟨0, some 10, some 0, false, ⟨false, false, false⟩, ⟨false, false, false⟩⟩, false) ∧
    Counter.setMaxValue ⟨0, some 10, some 0, false, ⟨false, false, false⟩,
      ⟨false, false, false⟩⟩ (some (-5)) =
      (⟨0, some 10, some 0, false, ⟨false, false, false⟩, ⟨false, false, false⟩⟩, false) ∧
    (Counter.setMinValue ⟨0, some 10, some 0, false, ⟨false, false, false⟩,
      ⟨false, false, false⟩⟩ none).2 = true ∧
    Counter.setMinValue ⟨0, some 10, some 0, false, ⟨false, false, false⟩,
      ⟨false, false, false⟩⟩ (some 5) =
      (Counter.set ⟨0, some 10, some 5, false, ⟨false, false, false⟩,
        ⟨false, false, false⟩⟩ 0, true) := by
  refine ⟨(counter_bound_reassignment _ 20).1 10 rfl (by norm_num),
    (counter_bound_reassignment _ (-5)).2.1 0 rfl (by norm_num),
    (counter_bound_reassignment (⟨0, some 10, some 0, false, ⟨false, false, false⟩,
      ⟨false, false, false⟩⟩ : Counter) 0).2.2.1.2.2, ?_⟩
  exact (counter_bound_reassignment _ 5).2.2.2.2.1 (by
    intro mx hmx
    cases hmx
    norm_num)

/-- C9: `wait_toggle_to(target)` never resolves at the moment of the call
(even when the switch is already in the target state), and whenever it
resolves, the operation trace that ran after the call contains an
observed transition into the target state. -/
theorem switch_wait_toggle_to_edge (target : Bool) (s : Switch) (ops : List SwOp) :
    waiterRun target s [] ≠ WPhase.finished ∧
    (waiterRun target s ops = WPhase.finished → risingTo target s ops = true) := by
  constructor
  · unfold waiterRun runWaiter initPhase
    split <;> simp
  · intro hrun
    exact runWaiter_finished_risingTo target ops s (initPhase target s)
      (by unfold initPhase; split <;> simp) hrun

/-- Witness for C9: on a switch already in the target state the call is
not resolved immediately, and the implication is realized on a switch
that is off and then turned on. -/
theorem switch_wait_toggle_to_edge_witness :
    waiterRun true ⟨true, true, false⟩ [] ≠ WPhase.finished ∧
    risingTo true ⟨false, false, false⟩ [SwOp.set] = true :=
  ⟨(switch_wait_toggle_to_edge true ⟨true, true, false⟩ []).1,
    (switch_wait_toggle_to_edge true ⟨false, false, false⟩ [SwOp.set]).2 (by decide)⟩

/-- C10 counterexample: the claim says that after every constructor call
the latches reflect the initial value against the bounds.  With
`min_value = max_value = 3`, clamping on and initial value 5, the min
latch ends up set although 5 is not at or below the bound 3 (the latch
reflects the value after the max clamp, not the initial value). -/
theorem counter_init_reflects_clamped_value :
    (mkCounter 5 (some 3) (some 3) true).minEv.state = true ∧
    ¬ ((5:ℚ) ≤ 3) := by decide

/-- C10 amended: the constructor runs the full `set` algorithm on the
initial value, so after construction (given bounds with min ≤ max when
both are present) the max latch equals (max bound present and
initial ≥ max), the min latch equals (min bound present and the
initial value clamped down to the max bound is ≤ min), and with clamping
on the stored value lies within the bounds. -/
theorem counter_init_latches (init : ℚ) (maxv minv : Option ℚ) (clamp : Bool)
    (h : ∀ mn mx, minv = some mn → maxv = some mx → mn ≤ mx) :
    ((mkCounter init maxv minv clamp).maxEv.state = true ↔ ∃ mx, maxv = some mx ∧ mx ≤ init) ∧
    ((mkCounter init maxv minv clamp).minEv.state = true ↔
      ∃ mn, minv = some mn ∧ clampedDown init maxv clamp ≤ mn) ∧
    (clamp = true →
      (∀ mx, maxv = some mx → (mkCounter init maxv minv clamp).counter ≤ mx) ∧
      (∀ mn, minv = some mn → mn ≤ (mkCounter init maxv minv clamp).counter)) := by
  have hset : mkCounter init maxv minv clamp =
      Counter.leaveMax (Counter.enterMin (Counter.leaveMin
        (Counter.enterMax ⟨init, maxv, minv, clamp, ⟨false, false, false⟩,
          ⟨false, false, false⟩⟩))) := rfl
  have hlm : Counter.leaveMin (Counter.enterMax ⟨init, maxv, minv, clamp,
      ⟨false, false, false⟩, ⟨false, false, false⟩⟩) =
      Counter.enterMax ⟨init, maxv, minv, clamp, ⟨false, false, false⟩,
        ⟨false, false, false⟩⟩ :=
    Counter.leaveMin_of_state_false _ (by rw [Counter.enterMax_minEv])
  rw [hset, hlm]
  refine ⟨?_, ?_, ?_⟩
  · rcases hmx : maxv with _ | mx
    · subst hmx
      rw [Counter.leaveMax_of_none _ (by
        rw [Counter.enterMin_maxValue, Counter.enterMax_maxValue])]
      rw [Counter.enterMin_maxEv, Counter.enterMax_of_none _ rfl]
      simp
    · subst hmx
      rw [Counter.leaveMax_maxEv_state_of_some _ mx (by
        rw [Counter.enterMin_maxValue, Counter.enterMax_maxValue])]
      rw [Counter.enterMin_maxEv, Counter.enterMax_maxEv_of_some _ mx rfl]
      dsimp only
      by_cases hle : mx ≤ init
      · have hge : ¬ ((Counter.enterMin (Counter.enterMax ⟨init, some mx, minv, clamp,
            ⟨false, false, false⟩, ⟨false, false, false⟩⟩)).counter < mx) := by
          have h4 := Counter.enterMin_counter_le (Counter.enterMax ⟨init, some mx, minv, clamp,
            ⟨false, false, false⟩, ⟨false, false, false⟩⟩)
          have h5 : mx ≤ (Counter.enterMax ⟨init, some mx, minv, clamp,
              ⟨false, false, false⟩, ⟨false, false, false⟩⟩).counter := by
            rw [Counter.enterMax_counter_of_some _ mx rfl]
            dsimp only
            split_ifs
            · exact le_refl mx
            · exact hle
          push_neg
          linarith
        simp [if_pos hle, hge, hle]
      · simp [if_neg hle, hle]
  · rcases hmn : minv with _ | mn
    · subst hmn
      rw [Counter.leaveMax_minEv, Counter.enterMin_of_none _ (by
        rw [Counter.enterMax_minValue]), Counter.enterMax_minEv]
      simp
    · subst hmn
      rw [Counter.leaveMax_minEv, Counter.enterMin_minEv_of_some _ mn (by
        rw [Counter.enterMax_minValue]), Counter.enterMax_minEv,
        Counter.enterMax_counter_clampedDown]
      by_cases hdm : clampedDown init maxv clamp ≤ mn
      · simp [if_pos hdm, hdm]
      · simp [if_neg hdm, hdm]
  · intro hcl
    subst hcl
    constructor
    · intro mx hmx
      subst hmx
      rw [Counter.leaveMax_counter]
      rcases hmn : minv with _ | mn
      · subst hmn
        rw [Counter.enterMin_of_none _ (by rw [Counter.enterMax_minValue])]
        rw [Counter.enterMax_counter_clampedDown]
        unfold clampedDown
        dsimp only
        split_ifs with h1
        · exact le_refl mx
        · exact le_of_not_le (fun hh => h1 ⟨hh, rfl⟩)
      · subst hmn
        rw [Counter.enterMin_counter_of_some _ mn (by rw [Counter.enterMax_minValue])]
        rw [Counter.enterMax_clamp, Counter.enterMax_counter_clampedDown]
        dsimp only
        have hdx : clampedDown init (some mx) true ≤ mx := by
          unfold clampedDown
          dsimp only
          split_ifs with hq
          · exact le_refl mx
          · exact le_of_not_le (fun hh => hq ⟨hh, rfl⟩)
        split_ifs with h1
        · exact h mn mx rfl rfl
        · exact hdx
    · intro mn hmn
      subst hmn
      rw [Counter.leaveMax_counter]
      rw [Counter.enterMin_counter_of_some _ mn (by rw [Counter.enterMax_minValue])]
      rw [Counter.enterMax_clamp, Counter.enterMax_counter_clampedDown]
      dsimp only
      split_ifs with h1
      · exact le_refl mn
      · exact le_of_lt (lt_of_not_le (fun hh => h1 ⟨hh, rfl⟩))

/-- Witness for C10 amended at a concrete clamped counter. -/
theorem counter_init_latches_witness :
    ((mkCounter 0 (some 10) (some 0) true).minEv.state = true ↔
      ∃ mn, (some (0:ℚ)) = some mn ∧ clampedDown 0 (some 10) true ≤ mn) :=
  (counter_init_latches 0 (some 10) (some 0) true (by
    intro mn mx h1 h2
    cases h1
    cases h2
    norm_num)).2.1

end Asynkets
